import Mathlib

/-!
Shallow embedding of `arps.py` (Arps decline-curve forecasting) and proofs
about it.

The source has three functions:
* `split(a, n)` — partitions a list into `n` contiguous near-equal slices;
* `Arps(Qi, D, B, dlim, years)` — daily and monthly rate series;
* `cumArps(Qi, D, B, dlim, month)` — cumulative production to a month.

Python floats are embedded as real numbers.  Operations that can raise in
Python (`x ** y` on invalid bases, division by a possibly-zero expression,
`math.log` of a non-positive number, `divmod(_, 0)`) are embedded as
`Option`-valued operations, so a Python exception is `none`; total real
arithmetic is used where the Python operation cannot raise.
-/

open Real

/-- Python list slice `a[lo:hi]`.  In this development it is only applied with
`0 ≤ lo ≤ hi` (the index arithmetic of `split` with a positive group count
produces only such bounds), where Python's slice means: drop the first `lo`
elements, keep those before position `hi`, clamping at the end of the list. -/
def pySlice {α : Type*} (a : List α) (lo hi : ℤ) : List α :=
  (a.take hi.toNat).drop lo.toNat

/-- The function `split a n` embeds `split(a, n)` from `arps.py`:
`k, m = divmod(len(a), n)` — Python floor division and floor modulus, whose
`ZeroDivisionError` at `n = 0` is `none` — followed by
`[a[i*k + min(i, m) : (i+1)*k + min(i+1, m)] for i in range(n)]`,
where Python's `range n` is empty when `n < 0`. -/
def split {α : Type*} (a : List α) (n : ℤ) : Option (List (List α)) :=
  if n = 0 then none
  else
    some <| (List.range n.toNat).map fun i : ℕ =>
      pySlice a ((i : ℤ) * ((a.length : ℤ).fdiv n) + min (i : ℤ) ((a.length : ℤ).fmod n))
        (((i : ℤ) + 1) * ((a.length : ℤ).fdiv n) + min ((i : ℤ) + 1) ((a.length : ℤ).fmod n))

/-- Slice boundary `i * k + min i m` of `split`, in natural numbers. -/
def splitBound (L n i : ℕ) : ℕ := i * (L / n) + min i (L % n)

theorem splitBound_mono {L n i j : ℕ} (h : i ≤ j) : splitBound L n i ≤ splitBound L n j :=
  Nat.add_le_add (Nat.mul_le_mul_right _ h) (min_le_min h le_rfl)

theorem splitBound_last {L n : ℕ} (hn : 0 < n) : splitBound L n n = L := by
  have hlt : L % n < n := Nat.mod_lt _ hn
  simp only [splitBound, min_eq_right hlt.le]
  exact Nat.div_add_mod L n

theorem splitBound_le {L n i : ℕ} (hn : 0 < n) (h : i ≤ n) : splitBound L n i ≤ L := by
  calc splitBound L n i ≤ splitBound L n n := splitBound_mono h
  _ = L := splitBound_last hn

theorem splitBound_cast (L n i : ℕ) :
    ((i : ℤ) * ((L : ℤ).fdiv (n : ℤ)) + min (i : ℤ) ((L : ℤ).fmod (n : ℤ))).toNat =
      splitBound L n i := by
  rw [← Int.ofNat_fdiv, ← Int.ofNat_fmod, ← Nat.cast_mul, ← Nat.cast_min, ← Nat.cast_add,
    Int.toNat_natCast]
  rfl

/-- Taking `a.take x` glued with the rest of `a.take y` recovers `a.take y`. -/
theorem take_glue {α : Type*} (a : List α) {x y : ℕ} (h : x ≤ y) :
    a.take x ++ (a.take y).drop x = a.take y := by
  conv_rhs => rw [← List.take_append_drop x (a.take y)]
  rw [List.take_take, min_eq_left h]

theorem join_range_slices {α : Type*} (a : List α) (nn : ℕ) :
    ∀ j, j ≤ nn →
      ((List.range j).map fun i =>
        (a.take (splitBound a.length nn (i + 1))).drop (splitBound a.length nn i)).flatten =
        a.take (splitBound a.length nn j) := by
  intro j
  induction j with
  | zero => intro _; simp [splitBound]
  | succ j ih =>
    intro hj
    rw [List.range_succ, List.map_append, List.flatten_append, ih (Nat.le_of_succ_le hj)]
    simp only [List.map_cons, List.map_nil, List.flatten_cons, List.flatten_nil, List.append_nil]
    exact take_glue a (splitBound_mono (Nat.le_succ j))

/-- Full behaviour of `split` for a positive group count `nn`: it succeeds,
returns `nn` groups, their concatenation is the input, and with
`k = L / nn`, `r = L % nn` the first `r` groups have `k + 1` elements and the
rest have `k`. -/
theorem split_pos_spec {α : Type*} (a : List α) (nn : ℕ) (hn : 0 < nn) :
    ∃ gs : List (List α), split a (nn : ℤ) = some gs ∧
      gs.length = nn ∧ gs.flatten = a ∧
      ∀ i, ∀ hi : i < gs.length,
        (gs.get ⟨i, hi⟩).length =
          if i < a.length % nn then a.length / nn + 1 else a.length / nn := by
  have hne : (nn : ℤ) ≠ 0 := by exact_mod_cast hn.ne'
  have hsplit : split a (nn : ℤ) = some ((List.range nn).map fun i =>
      (a.take (splitBound a.length nn (i + 1))).drop (splitBound a.length nn i)) := by
    rw [split, if_neg hne]
    congr 1
    rw [Int.toNat_natCast]
    apply List.map_congr_left
    intro i _
    rw [pySlice]
    have h1 := splitBound_cast a.length nn i
    have h2 := splitBound_cast a.length nn (i + 1)
    rw [h1, ← h2]
    congr 2
  refine ⟨_, hsplit, ?_, ?_, ?_⟩
  · simp
  · rw [join_range_slices a nn nn le_rfl, splitBound_last hn, List.take_length]
  · intro i hi
    have hilt : i < nn := by simpa using hi
    simp only [List.get_eq_getElem, List.getElem_map, List.getElem_range]
    rw [List.length_drop, List.length_take]
    have hle : splitBound a.length nn (i + 1) ≤ a.length := splitBound_le hn hilt
    rw [min_eq_left hle]
    have hstep : splitBound a.length nn (i + 1) =
        splitBound a.length nn i + (if i < a.length % nn then a.length / nn + 1
          else a.length / nn) := by
      simp only [splitBound]
      rcases lt_or_le i (a.length % nn) with hlt | hge
      · rw [if_pos hlt, min_eq_left hlt.le,
          min_eq_left (by omega : i + 1 ≤ a.length % nn)]
        ring
      · rw [if_neg (not_lt.mpr hge), min_eq_right hge,
          min_eq_right (by omega : a.length % nn ≤ i + 1)]
        ring
    rw [hstep]
    omega

/-- C3: for every sequence `a` and integer `n > 0`, `split` returns exactly
`n` contiguous sub-sequences whose concatenation reproduces `a` in order;
with `k = L div n` and `r = L mod n`, the first `r` sub-sequences have size
`k + 1` and the remaining `n - r` have size `k`. -/
theorem split_even_partition {α : Type*} (a : List α) (n : ℤ) (hn : 0 < n) :
    ∃ gs : List (List α), split a n = some gs ∧
      gs.length = n.toNat ∧ gs.flatten = a ∧
      ∀ i, ∀ hi : i < gs.length,
        (gs.get ⟨i, hi⟩).length =
          if i < a.length % n.toNat then a.length / n.toNat + 1
          else a.length / n.toNat := by
  have hcast : ((n.toNat : ℤ)) = n := Int.toNat_of_nonneg hn.le
  have hpos : 0 < n.toNat := by omega
  obtain ⟨gs, h1, h2, h3, h4⟩ := split_pos_spec a n.toNat hpos
  exact ⟨gs, by rwa [hcast] at h1, h2, h3, h4⟩

/-- C3 witness: `split` at the concrete input `[10, 20, 30, 40, 50]`, `n = 3`. -/
theorem split_even_partition_witness :
    ∃ gs : List (List ℕ), split [10, 20, 30, 40, 50] 3 = some gs ∧
      gs.length = (3 : ℤ).toNat ∧ gs.flatten = [10, 20, 30, 40, 50] ∧
      ∀ i, ∀ hi : i < gs.length,
        (gs.get ⟨i, hi⟩).length =
          if i < [10, 20, 30, 40, 50].length % (3 : ℤ).toNat then
            [10, 20, 30, 40, 50].length / (3 : ℤ).toNat + 1
          else [10, 20, 30, 40, 50].length / (3 : ℤ).toNat :=
  split_even_partition [10, 20, 30, 40, 50] 3 (by decide)

/-- C8 (amended): `split` fails only for `n = 0` (Python's `divmod(len(a), 0)`
raises `ZeroDivisionError`); for `n < 0` it succeeds and returns the empty
list of sub-sequences, because Python's `range n` is empty. -/
theorem split_nonpositive_n {α : Type*} (a : List α) (n : ℤ) (hn : n ≤ 0) :
    split a n = if n = 0 then none else some [] := by
  rcases eq_or_lt_of_le hn with h0 | hneg
  · subst h0
    simp [split]
  · rw [split, if_neg hneg.ne, if_neg hneg.ne]
    have : n.toNat = 0 := Int.toNat_eq_zero.mpr hn
    rw [this]
    rfl

/-- C8 witness: `split [1, 2, 3] (-2)` succeeds with the empty group list. -/
theorem split_nonpositive_n_witness :
    (-2 : ℤ) ≤ 0 ∧ split ([1, 2, 3] : List ℕ) (-2) = if (-2 : ℤ) = 0 then none else some [] :=
  ⟨by decide, split_nonpositive_n [1, 2, 3] (-2) (by decide)⟩

/-- C8 counterexample: at `a = [1, 2, 3]`, `n = -1`, `split` does not fail —
it returns `some []` — refuting the claim that every `n ≤ 0` fails. -/
theorem split_negative_n_returns_empty :
    split ([1, 2, 3] : List ℕ) (-1) = some [] ∧
      split ([1, 2, 3] : List ℕ) (-1) ≠ none := by
  constructor <;> decide

/-! ### Embedding of the real-number pipeline of `Arps` -/

open Classical in
/-- Python float `x ** y`: raises `ZeroDivisionError` when `x = 0` and
`y < 0`; when `x < 0` and `y` is not an integer the result is complex, and
every such value in this program subsequently hits `math.ceil`, which raises
`TypeError` — both failure modes are `none`.  Otherwise the real power. -/
noncomputable def pyPow (x y : ℝ) : Option ℝ :=
  if x = 0 ∧ y < 0 then none
  else if x < 0 ∧ ∀ n : ℤ, y ≠ (n : ℝ) then none
  else some (x ^ y)

/-- Python `x / y`: raises `ZeroDivisionError` when `y = 0`. -/
noncomputable def pyDiv (x y : ℝ) : Option ℝ :=
  if y = 0 then none else some (x / y)

/-- Python `math.log x`: raises `ValueError` when `x ≤ 0`. -/
noncomputable def pyLog (x : ℝ) : Option ℝ :=
  if x ≤ 0 then none else some (Real.log x)

theorem pyPow_of_pos {x : ℝ} (hx : 0 < x) (y : ℝ) : pyPow x y = some (x ^ y) := by
  rw [pyPow, if_neg fun h => hx.ne' h.1,
    if_neg fun h => absurd h.1 (not_lt.mpr hx.le)]

theorem pyPow_zero_of_neg {y : ℝ} (hy : y < 0) : pyPow 0 y = none := by
  rw [pyPow, if_pos ⟨rfl, hy⟩]

theorem pyDiv_of_ne {y : ℝ} (hy : y ≠ 0) (x : ℝ) : pyDiv x y = some (x / y) := by
  rw [pyDiv, if_neg hy]

theorem pyLog_of_pos {x : ℝ} (hx : 0 < x) : pyLog x = some (Real.log x) := by
  rw [pyLog, if_neg (not_le.mpr hx)]

/-- Sequential `Option` traversal of a list: a Python list comprehension
produces its elements in order and the first exception aborts the whole
comprehension. -/
def mapOpt {α β : Type*} (f : α → Option β) : List α → Option (List β)
  | [] => some []
  | x :: xs => do
    let y ← f x
    let ys ← mapOpt f xs
    pure (y :: ys)

theorem mapOpt_eq_map {α β : Type*} {f : α → Option β} {g : α → β} :
    ∀ {l : List α}, (∀ a ∈ l, f a = some (g a)) → mapOpt f l = some (l.map g) := by
  intro l
  induction l with
  | nil => intro _; rfl
  | cons x xs ih =>
    intro h
    rw [mapOpt, h x (List.mem_cons_self x xs), ih fun a ha => h a (List.mem_cons_of_mem x ha)]
    rfl

/-- Source `D_nom = ((1 - D) ** (-1 * B) - 1) / B` (`Arps`, arps.py line 30):
nominal decline as a function of secant effective decline, 1/year. -/
noncomputable def D_nom (D B : ℝ) : ℝ := ((1 - D) ^ (-1 * B) - 1) / B

/-- Source `dlim_nom = m.log(1 - dlim) / -1` (`Arps`, arps.py line 31):
nominal decline rate at `dlim`, 1/year. -/
noncomputable def dlim_nom (dlim : ℝ) : ℝ := Real.log (1 - dlim) / (-1)

/-- Source `qlim = Qi * (dlim_nom / D_nom) ** (1 / B)` (`Arps`, arps.py line 32). -/
noncomputable def qlim (Qi D B dlim : ℝ) : ℝ :=
  Qi * (dlim_nom dlim / D_nom D B) ^ (1 / B)

/-- Source `tlim = m.ceil((((Qi / qlim) ** B) - 1) / (B * D_nom)) * 365`
(`Arps`, arps.py line 33), in days. -/
noncomputable def tlim (Qi D B dlim : ℝ) : ℤ :=
  ⌈(((Qi / qlim Qi D B dlim) ^ B) - 1) / (B * D_nom D B)⌉ * 365

/-- One entry of the `q_daily` comprehension (`Arps`, arps.py line 35):
`Qi / ((1 + B * D_nom * day / 365) ** (1 / B))` while `day < tlim`, and
`qlim * m.exp(-1 * dlim_nom * (day - tlim) / 365)` afterwards. -/
noncomputable def q_day (Qi D B dlim : ℝ) (day : ℕ) : ℝ :=
  if (day : ℤ) < tlim Qi D B dlim then
    Qi / ((1 + B * D_nom D B * (day : ℝ) / 365) ^ (1 / B))
  else
    qlim Qi D B dlim * Real.exp (-1 * dlim_nom dlim * ((day : ℝ) - (tlim Qi D B dlim : ℝ)) / 365)

/-- The daily series of `Arps`:
`days = np.arange(0, years * 365 + 1)` mapped through the rate formula. -/
noncomputable def q_daily (Qi D B dlim : ℝ) (years : ℕ) : List ℝ :=
  (List.range (years * 365 + 1)).map (q_day Qi D B dlim)

/-- One day of the daily comprehension with every fallible Python operation
guarded (the power, and the divisions whose divisor is not a nonzero
literal). -/
noncomputable def qDayRun (Qi B dn dln ql : ℝ) (tl : ℤ) (day : ℕ) : Option ℝ :=
  if (day : ℤ) < tl then do
    let invB ← pyDiv 1 B
    let pw ← pyPow (1 + B * dn * (day : ℝ) / 365) invB
    pyDiv Qi pw
  else
    pure (ql * Real.exp (-1 * dln * ((day : ℝ) - (tl : ℝ)) / 365))

/-- Embedding of `Arps(Qi, D, B, dlim, years)` from arps.py with Python's failure modes
made explicit: each `**`, each `/` by a non-literal divisor, `math.log`, and
the final `split` by `years * 12` go through the guarded operations; a raised
exception is `none`.  On success it returns `(q_daily, q_monthly)`. -/
noncomputable def Arps (Qi D B dlim : ℝ) (years : ℕ) : Option (List ℝ × List ℝ) := do
  let p1 ← pyPow (1 - D) (-1 * B)
  let dn ← pyDiv (p1 - 1) B
  let lg ← pyLog (1 - dlim)
  let dln := lg / (-1)
  let rat ← pyDiv dln dn
  let invB ← pyDiv 1 B
  let pw ← pyPow rat invB
  let ql := Qi * pw
  let r2 ← pyDiv Qi ql
  let pw2 ← pyPow r2 B
  let pre ← pyDiv (pw2 - 1) (B * dn)
  let tl : ℤ := ⌈pre⌉ * 365
  let qd ← mapOpt (qDayRun Qi B dn dln ql tl) (List.range (years * 365 + 1))
  let gs ← split qd ((years : ℤ) * 12)
  pure (qd, gs.map List.sum)

/-! ### Positivity of the derived decline quantities, and the success path -/

theorem D_nom_pos {D B : ℝ} (hD0 : 0 < D) (hD1 : D < 1) (hB : 0 < B) : 0 < D_nom D B := by
  have h1 : (0 : ℝ) < 1 - D := by linarith
  have h3 : 1 < (1 - D) ^ (-1 * B) := by
    rw [Real.one_lt_rpow_iff_of_pos h1]
    exact Or.inr ⟨by linarith, by linarith⟩
  exact div_pos (by linarith) hB

theorem dlim_nom_pos {dlim : ℝ} (h0 : 0 < dlim) (h1 : dlim < 1) : 0 < dlim_nom dlim := by
  have hlog : Real.log (1 - dlim) < 0 := Real.log_neg (by linarith) (by linarith)
  rw [dlim_nom, div_neg, div_one]
  linarith

theorem qlim_pos {Qi D B dlim : ℝ} (hQi : 0 < Qi) (hdn : 0 < D_nom D B)
    (hdln : 0 < dlim_nom dlim) : 0 < qlim Qi D B dlim :=
  mul_pos hQi (Real.rpow_pos_of_pos (div_pos hdln hdn) _)

theorem qDayRun_some (Qi D B dlim : ℝ) (hB : 0 < B) (hdn : 0 < D_nom D B) (day : ℕ) :
    qDayRun Qi B (D_nom D B) (dlim_nom dlim) (qlim Qi D B dlim) (tlim Qi D B dlim) day =
      some (q_day Qi D B dlim day) := by
  have hnum : 0 ≤ B * D_nom D B * (day : ℝ) :=
    mul_nonneg (mul_nonneg hB.le hdn.le) (Nat.cast_nonneg day)
  have hbase : 0 < 1 + B * D_nom D B * (day : ℝ) / 365 := by
    have h : 0 ≤ B * D_nom D B * (day : ℝ) / 365 := div_nonneg hnum (by norm_num)
    linarith
  have hpw : 0 < (1 + B * D_nom D B * (day : ℝ) / 365) ^ ((1 : ℝ) / B) :=
    Real.rpow_pos_of_pos hbase _
  unfold qDayRun q_day
  by_cases h : (day : ℤ) < tlim Qi D B dlim
  · rw [if_pos h, if_pos h, pyDiv_of_ne hB.ne']
    simp only [Option.bind_eq_bind, Option.some_bind]
    rw [pyPow_of_pos hbase]
    simp only [Option.bind_eq_bind, Option.some_bind]
    rw [pyDiv_of_ne hpw.ne']
  · rw [if_neg h, if_neg h]
    rfl

/-- The success path of `Arps`: whenever `D < 1`, `0 < B`, `dlim < 1`,
`0 < D_nom`, `0 < dlim_nom` and `Qi ≠ 0`, every guarded operation up to and
including the daily comprehension succeeds, so the run reduces to `split` of
the daily series by `years * 12`. -/
theorem Arps_run_eq (Qi D B dlim : ℝ) (years : ℕ) (hD1 : D < 1) (hB : 0 < B)
    (hdl1 : dlim < 1) (hdn : 0 < D_nom D B) (hdln : 0 < dlim_nom dlim) (hQi : Qi ≠ 0) :
    Arps Qi D B dlim years =
      (split (q_daily Qi D B dlim years) ((years : ℤ) * 12)).bind fun gs =>
        some (q_daily Qi D B dlim years, gs.map List.sum) := by
  have h1D : (0 : ℝ) < 1 - D := by linarith
  have h1dl : (0 : ℝ) < 1 - dlim := by linarith
  have hdnR : ((1 - D) ^ (-1 * B) - 1) / B ≠ 0 := hdn.ne'
  have hrat : 0 < dlim_nom dlim / D_nom D B := div_pos hdln hdn
  have hratR : (0 : ℝ) < Real.log (1 - dlim) / (-1) / (((1 - D) ^ (-1 * B) - 1) / B) := hrat
  have hpw : 0 < (dlim_nom dlim / D_nom D B) ^ ((1 : ℝ) / B) :=
    Real.rpow_pos_of_pos hrat _
  have hqlR : qlim Qi D B dlim ≠ 0 := mul_ne_zero hQi hpw.ne'
  have hr2 : 0 < Qi / qlim Qi D B dlim := by
    rw [qlim, div_mul_cancel_left₀ hQi]
    exact inv_pos.mpr hpw
  have hBdn : B * D_nom D B ≠ 0 := (mul_pos hB hdn).ne'
  unfold Arps
  rw [pyPow_of_pos h1D]
  simp only [Option.bind_eq_bind, Option.some_bind]
  rw [pyDiv_of_ne hB.ne']
  simp only [Option.bind_eq_bind, Option.some_bind]
  rw [pyLog_of_pos h1dl]
  simp only [Option.bind_eq_bind, Option.some_bind]
  rw [show ((1 - D) ^ (-1 * B) - 1) / B = D_nom D B from rfl,
    show Real.log (1 - dlim) / (-1) = dlim_nom dlim from rfl]
  rw [pyDiv_of_ne hdn.ne']
  simp only [Option.bind_eq_bind, Option.some_bind]
  rw [pyDiv_of_ne hB.ne']
  simp only [Option.bind_eq_bind, Option.some_bind]
  rw [pyPow_of_pos hrat]
  simp only [Option.bind_eq_bind, Option.some_bind]
  rw [show Qi * (dlim_nom dlim / D_nom D B) ^ (1 / B) = qlim Qi D B dlim from rfl]
  rw [pyDiv_of_ne hqlR]
  simp only [Option.bind_eq_bind, Option.some_bind]
  rw [pyPow_of_pos hr2]
  simp only [Option.bind_eq_bind, Option.some_bind]
  rw [pyDiv_of_ne hBdn]
  simp only [Option.bind_eq_bind, Option.some_bind]
  rw [show (⌈((Qi / qlim Qi D B dlim) ^ B - 1) / (B * D_nom D B)⌉ * 365 : ℤ) =
    tlim Qi D B dlim from rfl]
  rw [mapOpt_eq_map fun a (_ : a ∈ List.range (years * 365 + 1)) =>
    qDayRun_some Qi D B dlim hB hdn a]
  simp only [Option.bind_eq_bind, Option.some_bind]
  rw [show (List.range (years * 365 + 1)).map (q_day Qi D B dlim) =
    q_daily Qi D B dlim years from rfl]
  simp only [Option.pure_def]

/-- Quantity `D_nom` written the way the specification writes it (`(-B)` for `(-1 * B)`). -/
theorem D_nom_eq (D B : ℝ) : D_nom D B = ((1 - D) ^ (-B) - 1) / B := by
  rw [D_nom, neg_one_mul]

/-- Quantity `dlim_nom` written the way the specification writes it (`-ln(1 - Dlim)`). -/
theorem dlim_nom_eq (dlim : ℝ) : dlim_nom dlim = -Real.log (1 - dlim) := by
  rw [dlim_nom, div_neg, div_one]

/-- Quantity `qlim` written the way the specification writes it. -/
theorem qlim_eq (Qi D B dlim : ℝ) :
    qlim Qi D B dlim = Qi * (-Real.log (1 - dlim) / (((1 - D) ^ (-B) - 1) / B)) ^ (1 / B) := by
  rw [qlim, dlim_nom_eq, D_nom_eq]

/-- C6 (amended): `Arps` does fail when `D = 1.0` — `(1 - D) ** (-1 * B)` is
`0.0` raised to a negative power, a `ZeroDivisionError` — and the failed call
produces no output. -/
theorem Arps_fails_on_D_eq_one (Qi B dlim : ℝ) (years : ℕ) (hB : 0 < B) :
    Arps Qi 1 B dlim years = none := by
  unfold Arps
  rw [show (1 : ℝ) - 1 = 0 from by norm_num,
    pyPow_zero_of_neg (by linarith : (-1 : ℝ) * B < 0)]
  rfl

/-- C6 witness: the failure at the concrete invalid input `D = 1.0`. -/
theorem Arps_fails_on_D_eq_one_witness :
    (0 : ℝ) < 1 ∧ Arps 10000 1 1 (1/2) 1 = none :=
  ⟨by norm_num, Arps_fails_on_D_eq_one 10000 1 (1/2) 1 (by norm_num)⟩

/-- C6 counterexample: the claim says `Arps` fails whenever `Qi ≤ 0`, but at
`Qi = -1` (with `D = B = dlim = 1/2`, `years = 1`, all other parameters
valid) every operation stays real and defined, and the call succeeds. -/
theorem Arps_succeeds_on_nonpositive_Qi :
    (Arps (-1) (1/2) (1/2) (1/2) 1).isSome = true := by
  have hdn : 0 < D_nom (1/2) (1/2) :=
    D_nom_pos (by norm_num) (by norm_num) (by norm_num)
  have hdln : 0 < dlim_nom (1/2) := dlim_nom_pos (by norm_num) (by norm_num)
  rw [Arps_run_eq (-1) (1/2) (1/2) (1/2) 1 (by norm_num) (by norm_num) (by norm_num)
    hdn hdln (by norm_num)]
  rw [split, if_neg (by norm_num : ((1 : ℕ) : ℤ) * 12 ≠ 0)]
  rfl

/-- C9 (amended): for every valid parameter set, calling `Arps` with
`years = 0` fails: the monthly bucketing calls `split(q_daily, 0)`, whose
`divmod(len(a), 0)` raises `ZeroDivisionError`, so no output is produced. -/
theorem Arps_years_zero_fails (Qi D B dlim : ℝ) (hQi : 0 < Qi) (hD0 : 0 < D) (hD1 : D < 1)
    (hB : 0 < B) (hl0 : 0 < dlim) (hl1 : dlim < 1) :
    Arps Qi D B dlim 0 = none := by
  rw [Arps_run_eq Qi D B dlim 0 hD1 hB hl1 (D_nom_pos hD0 hD1 hB)
    (dlim_nom_pos hl0 hl1) hQi.ne']
  rw [split, if_pos (by norm_num : ((0 : ℕ) : ℤ) * 12 = 0)]
  rfl

/-- C9 witness: the `years = 0` failure at a concrete valid parameter set. -/
theorem Arps_years_zero_fails_witness :
    (0 : ℝ) < 10000 ∧ Arps 10000 (1/2) 1 (1/2) 0 = none :=
  ⟨by norm_num, Arps_years_zero_fails 10000 (1/2) 1 (1/2) (by norm_num) (by norm_num)
    (by norm_num) (by norm_num) (by norm_num) (by norm_num)⟩

/-- C9 counterexample: at the concrete valid parameters
`Qi = 1, D = 1/2, B = 1, dlim = 1/2`, calling `Arps` with `years = 0` does
not succeed with `([Qi], [])` — it fails with no output at all. -/
theorem Arps_years_zero_none_example : Arps 1 (1/2) 1 (1/2) 0 = none := by
  have hdn : 0 < D_nom (1/2) 1 := D_nom_pos (by norm_num) (by norm_num) (by norm_num)
  have hdln : 0 < dlim_nom (1/2) := dlim_nom_pos (by norm_num) (by norm_num)
  rw [Arps_run_eq 1 (1/2) 1 (1/2) 0 (by norm_num) (by norm_num) (by norm_num)
    hdn hdln (by norm_num)]
  rw [split, if_pos (by norm_num : ((0 : ℕ) : ℤ) * 12 = 0)]
  rfl

/-- C4: for every valid parameter set and positive `years`, `Arps` returns a
daily series of length `years * 365 + 1` and a monthly series of length
`years * 12`. -/
theorem Arps_series_lengths (Qi D B dlim : ℝ) (years : ℕ) (hQi : 0 < Qi) (hD0 : 0 < D)
    (hD1 : D < 1) (hB : 0 < B) (hl0 : 0 < dlim) (hl1 : dlim < 1) (hy : 0 < years) :
    ∃ d mo : List ℝ, Arps Qi D B dlim years = some (d, mo) ∧
      d.length = years * 365 + 1 ∧ mo.length = years * 12 := by
  have hrun := Arps_run_eq Qi D B dlim years hD1 hB hl1 (D_nom_pos hD0 hD1 hB)
    (dlim_nom_pos hl0 hl1) hQi.ne'
  obtain ⟨gs, hsp, hlen, -, -⟩ :=
    split_pos_spec (q_daily Qi D B dlim years) (years * 12) (by omega)
  have hc : ((years * 12 : ℕ) : ℤ) = (years : ℤ) * 12 := by push_cast; ring
  rw [hc] at hsp
  refine ⟨q_daily Qi D B dlim years, gs.map List.sum, ?_, ?_, ?_⟩
  · rw [hrun, hsp]
    rfl
  · rw [q_daily, List.length_map, List.length_range]
  · rw [List.length_map, hlen]

/-- C4 witness: concrete valid parameters, `years = 1`. -/
theorem Arps_series_lengths_witness :
    ∃ d mo : List ℝ, Arps 1 (1/2) 1 (1/2) 1 = some (d, mo) ∧
      d.length = 1 * 365 + 1 ∧ mo.length = 1 * 12 :=
  Arps_series_lengths 1 (1/2) 1 (1/2) 1 (by norm_num) (by norm_num) (by norm_num)
    (by norm_num) (by norm_num) (by norm_num) (by norm_num)

/-- C1: for every valid parameter set and positive `years`, the `t`-th entry
of the daily series (`0 ≤ t ≤ years * 365`) is
`Qi / (1 + B*D_nom*t/365)^(1/B)` while `t < tlim` and
`qlim * exp(-Dlim_nom*(t - tlim)/365)` from `tlim` on, with
`D_nom = ((1-D)^(-B) - 1)/B`, `Dlim_nom = -ln(1-Dlim)`,
`qlim = Qi*(Dlim_nom/D_nom)^(1/B)` and `tlim` the computed transition day. -/
theorem Arps_daily_rate_formula (Qi D B dlim : ℝ) (years : ℕ) (hQi : 0 < Qi) (hD0 : 0 < D)
    (hD1 : D < 1) (hB : 0 < B) (hl0 : 0 < dlim) (hl1 : dlim < 1) (hy : 0 < years)
    (t : ℕ) (ht : t ≤ years * 365) :
    ∃ d mo : List ℝ, Arps Qi D B dlim years = some (d, mo) ∧
      d.getD t 0 =
        if (t : ℤ) < tlim Qi D B dlim then
          Qi / (1 + B * (((1 - D) ^ (-B) - 1) / B) * (t : ℝ) / 365) ^ (1 / B)
        else
          Qi * (-Real.log (1 - dlim) / (((1 - D) ^ (-B) - 1) / B)) ^ (1 / B) *
            Real.exp (-(-Real.log (1 - dlim)) * ((t : ℝ) - (tlim Qi D B dlim : ℝ)) / 365) := by
  have hrun := Arps_run_eq Qi D B dlim years hD1 hB hl1 (D_nom_pos hD0 hD1 hB)
    (dlim_nom_pos hl0 hl1) hQi.ne'
  obtain ⟨gs, hsp, -, -, -⟩ :=
    split_pos_spec (q_daily Qi D B dlim years) (years * 12) (by omega)
  have hc : ((years * 12 : ℕ) : ℤ) = (years : ℤ) * 12 := by push_cast; ring
  rw [hc] at hsp
  refine ⟨q_daily Qi D B dlim years, gs.map List.sum, by rw [hrun, hsp]; rfl, ?_⟩
  have htd : (q_daily Qi D B dlim years).getD t 0 = q_day Qi D B dlim t := by
    rw [q_daily, List.getD_eq_getElem?_getD, List.getElem?_map,
      List.getElem?_range (by omega : t < years * 365 + 1)]
    rfl
  rw [htd, q_day]
  by_cases h : (t : ℤ) < tlim Qi D B dlim
  · rw [if_pos h, if_pos h, D_nom_eq]
  · rw [if_neg h, if_neg h, qlim_eq, dlim_nom_eq, neg_one_mul]

/-- C1 witness: the formula at `Qi = 1, D = 1/2, B = 1, dlim = 1/2`,
`years = 1`, `t = 0`. -/
theorem Arps_daily_rate_formula_witness :
    ∃ d mo : List ℝ, Arps 1 (1/2) 1 (1/2) 1 = some (d, mo) ∧
      d.getD 0 0 =
        if ((0 : ℕ) : ℤ) < tlim 1 (1/2) 1 (1/2) then
          1 / (1 + 1 * (((1 - 1/2) ^ (-(1 : ℝ)) - 1) / 1) * ((0 : ℕ) : ℝ) / 365) ^ (1 / (1 : ℝ))
        else
          1 * (-Real.log (1 - 1/2) / (((1 - 1/2) ^ (-(1 : ℝ)) - 1) / 1)) ^ (1 / (1 : ℝ)) *
            Real.exp (-(-Real.log (1 - 1/2)) *
              (((0 : ℕ) : ℝ) - (tlim 1 (1/2) 1 (1/2) : ℝ)) / 365) :=
  Arps_daily_rate_formula 1 (1/2) 1 (1/2) 1 (by norm_num) (by norm_num) (by norm_num)
    (by norm_num) (by norm_num) (by norm_num) (by norm_num) 0 (by norm_num)

/-! ### Embedding of `cumArps` -/

/-- Source `D_nom = ((1 - D) ** (-1 * B) - 1) / B` as recomputed in `cumArps`
(arps.py line 54) — textually the same expression as in `Arps`. -/
noncomputable def cum_D_nom (D B : ℝ) : ℝ := ((1 - D) ^ (-1 * B) - 1) / B

/-- Source `dlim_nom = -1 * m.log(1 - dlim)` as recomputed in `cumArps` (line 55). -/
noncomputable def cum_dlim_nom (dlim : ℝ) : ℝ := -1 * Real.log (1 - dlim)

/-- Source `qlim = Qi * ((dlim_nom / D_nom) ** (1 / B))` as recomputed in `cumArps`
(line 56). -/
noncomputable def cum_qlim (Qi D B dlim : ℝ) : ℝ :=
  Qi * ((cum_dlim_nom dlim / cum_D_nom D B) ^ (1 / B))

/-- Source `tlim = m.ceil((((Qi / qlim) ** B) - 1) / (B * D_nom)) * 365` as
recomputed in `cumArps` (line 57), in days. -/
noncomputable def cum_tlim (Qi D B dlim : ℝ) : ℤ :=
  ⌈(((Qi / cum_qlim Qi D B dlim) ^ B) - 1) / (B * cum_D_nom D B)⌉ * 365

/-- Source `q_switch` (line 58): the hyperbolic cumulative form evaluated at
`t = tlim` days. -/
noncomputable def q_switch (Qi D B dlim : ℝ) : ℝ :=
  (Qi / ((1 - B) * cum_D_nom D B)) * 365 *
    (1 - (1 + B * cum_D_nom D B * (cum_tlim Qi D B dlim : ℝ) / 365) ^ (1 - 1 / B))

/-- Embedding of `cumArps(Qi, D, B, dlim, month)` (arps.py lines 42–65): the hyperbolic
cumulative before the transition (`month*365/12 < tlim`), and the
exponential-regime increment plus `q_switch` afterwards. -/
noncomputable def cumArps (Qi D B dlim : ℝ) (month : ℕ) : ℝ :=
  if (month : ℝ) * 365 / 12 < (cum_tlim Qi D B dlim : ℝ) then
    (Qi / ((1 - B) * cum_D_nom D B)) * 365 *
      (1 - (1 + B * cum_D_nom D B * (month : ℝ) / 12) ^ (1 - 1 / B))
  else
    (cum_qlim Qi D B dlim / cum_dlim_nom dlim * 365) *
      (1 - Real.exp (-cum_dlim_nom dlim *
        ((month : ℝ) * 365 / 12 - (cum_tlim Qi D B dlim : ℝ)) / 365)) +
      q_switch Qi D B dlim

theorem cum_dlim_nom_eq (dlim : ℝ) : cum_dlim_nom dlim = dlim_nom dlim := by
  rw [cum_dlim_nom, dlim_nom]
  ring

theorem cum_qlim_eq (Qi D B dlim : ℝ) : cum_qlim Qi D B dlim = qlim Qi D B dlim := by
  rw [cum_qlim, qlim, cum_dlim_nom_eq, show cum_D_nom D B = D_nom D B from rfl]

theorem cum_tlim_eq (Qi D B dlim : ℝ) : cum_tlim Qi D B dlim = tlim Qi D B dlim := by
  rw [cum_tlim, tlim, cum_qlim_eq, show cum_D_nom D B = D_nom D B from rfl]

/-- C2: both `Arps` and `cumArps` compute the transition day as
`ceil(((Qi/qlim)^B - 1) / (B*D_nom)) * 365` — the ceiling is applied to the
year-count expression and then scaled by 365 — so the transition day of
either function is always an integer multiple of 365. -/
theorem tlim_year_boundary (Qi D B dlim : ℝ) :
    tlim Qi D B dlim =
      ⌈((Qi / (Qi * (-Real.log (1 - dlim) / (((1 - D) ^ (-B) - 1) / B)) ^ (1 / B))) ^ B - 1) /
        (B * (((1 - D) ^ (-B) - 1) / B))⌉ * 365 ∧
      cum_tlim Qi D B dlim = tlim Qi D B dlim ∧
      (365 : ℤ) ∣ tlim Qi D B dlim ∧ (365 : ℤ) ∣ cum_tlim Qi D B dlim := by
  refine ⟨?_, cum_tlim_eq Qi D B dlim, ?_, ?_⟩
  · rw [tlim, qlim_eq, D_nom_eq]
  · rw [tlim]
    exact dvd_mul_left 365 _
  · rw [cum_tlim]
    exact dvd_mul_left 365 _

theorem cum_D_nom_pos {D B : ℝ} (hD0 : 0 < D) (hD1 : D < 1) (hB : 0 < B) :
    0 < cum_D_nom D B := D_nom_pos hD0 hD1 hB

theorem cum_dlim_nom_pos {dlim : ℝ} (h0 : 0 < dlim) (h1 : dlim < 1) :
    0 < cum_dlim_nom dlim := by
  rw [cum_dlim_nom_eq]
  exact dlim_nom_pos h0 h1

theorem cum_qlim_pos {Qi D B dlim : ℝ} (hQi : 0 < Qi) (hdn : 0 < cum_D_nom D B)
    (hdln : 0 < cum_dlim_nom dlim) : 0 < cum_qlim Qi D B dlim :=
  mul_pos hQi (Real.rpow_pos_of_pos (div_pos hdln hdn) _)

/-- Monotonicity of the hyperbolic cumulative form of `cumArps` in its time
argument `x` (in years), on both sides of `B = 1`: its derivative is
`Qi * 365 * (1 + B*dn*x)^(-1/B) > 0`. -/
theorem hyp_branch_mono (Qi dn B x y : ℝ) (hQi : 0 < Qi) (hdn : 0 < dn)
    (hB : 0 < B) (hB1 : B ≠ 1) (hx : 0 ≤ x) (hxy : x ≤ y) :
    Qi / ((1 - B) * dn) * 365 * (1 - (1 + B * dn * x) ^ (1 - 1 / B)) ≤
      Qi / ((1 - B) * dn) * 365 * (1 - (1 + B * dn * y) ^ (1 - 1 / B)) := by
  have hBdn : 0 < B * dn := mul_pos hB hdn
  have hux : 0 < 1 + B * dn * x := by nlinarith
  have huxy : 1 + B * dn * x ≤ 1 + B * dn * y := by nlinarith
  rcases lt_or_gt_of_ne hB1 with hlt | hgt
  · have hexp : 1 - 1 / B ≤ 0 := by
      have h1B : 1 < 1 / B := (one_lt_div hB).mpr hlt
      linarith
    have hpow := Real.rpow_le_rpow_of_exponent_nonpos hux huxy hexp
    have hco : 0 < Qi / ((1 - B) * dn) * 365 := by
      have hpos : 0 < (1 - B) * dn := mul_pos (by linarith) hdn
      positivity
    exact mul_le_mul_of_nonneg_left (by linarith) hco.le
  · have hexp : 0 ≤ 1 - 1 / B := by
      have h1B : 1 / B < 1 := (div_lt_one hB).mpr hgt
      linarith
    have hpow := Real.rpow_le_rpow hux.le huxy hexp
    have hco : Qi / ((1 - B) * dn) * 365 ≤ 0 := by
      have hneg : (1 - B) * dn < 0 := mul_neg_of_neg_of_pos (by linarith) hdn
      have hq : Qi / ((1 - B) * dn) < 0 := div_neg_of_pos_of_neg hQi hneg
      nlinarith
    exact mul_le_mul_of_nonpos_left (by linarith) hco

/-- Monotonicity of the exponential cumulative increment of `cumArps` in its
day-offset argument. -/
theorem exp_branch_mono (ql dln a b : ℝ) (hql : 0 < ql) (hdln : 0 < dln) (hab : a ≤ b) :
    ql / dln * 365 * (1 - Real.exp (-dln * a / 365)) ≤
      ql / dln * 365 * (1 - Real.exp (-dln * b / 365)) := by
  have hco : 0 < ql / dln * 365 := by positivity
  have harg : -dln * b / 365 ≤ -dln * a / 365 := by nlinarith
  have hexp : Real.exp (-dln * b / 365) ≤ Real.exp (-dln * a / 365) :=
    Real.exp_le_exp.mpr harg
  exact mul_le_mul_of_nonneg_left (by linarith) hco.le

/-- C5: for fixed valid parameters with `B ≠ 1`, `cumArps` is non-decreasing
in the month argument, including across the hyperbolic-to-exponential
boundary. -/
theorem cumArps_monotone_in_month (Qi D B dlim : ℝ) (hQi : 0 < Qi) (hD0 : 0 < D)
    (hD1 : D < 1) (hB : 0 < B) (hB1 : B ≠ 1) (hl0 : 0 < dlim) (hl1 : dlim < 1)
    (m1 m2 : ℕ) (hm : m1 ≤ m2) :
    cumArps Qi D B dlim m1 ≤ cumArps Qi D B dlim m2 := by
  have hdn : 0 < cum_D_nom D B := cum_D_nom_pos hD0 hD1 hB
  have hdln : 0 < cum_dlim_nom dlim := cum_dlim_nom_pos hl0 hl1
  have hql : 0 < cum_qlim Qi D B dlim := cum_qlim_pos hQi hdn hdln
  have hmR : (m1 : ℝ) ≤ (m2 : ℝ) := Nat.cast_le.mpr hm
  unfold cumArps
  by_cases h1 : (m1 : ℝ) * 365 / 12 < (cum_tlim Qi D B dlim : ℝ)
  · by_cases h2 : (m2 : ℝ) * 365 / 12 < (cum_tlim Qi D B dlim : ℝ)
    · rw [if_pos h1, if_pos h2,
        show (1 + B * cum_D_nom D B * (m1 : ℝ) / 12) =
          (1 + B * cum_D_nom D B * ((m1 : ℝ) / 12)) from by ring,
        show (1 + B * cum_D_nom D B * (m2 : ℝ) / 12) =
          (1 + B * cum_D_nom D B * ((m2 : ℝ) / 12)) from by ring]
      exact hyp_branch_mono Qi (cum_D_nom D B) B ((m1 : ℝ) / 12) ((m2 : ℝ) / 12)
        hQi hdn hB hB1 (by positivity) (by linarith)
    · rw [if_pos h1, if_neg h2,
        show (1 + B * cum_D_nom D B * (m1 : ℝ) / 12) =
          (1 + B * cum_D_nom D B * ((m1 : ℝ) / 12)) from by ring]
      have hm1tl : (m1 : ℝ) / 12 ≤ (cum_tlim Qi D B dlim : ℝ) / 365 := by linarith
      have hkey := hyp_branch_mono Qi (cum_D_nom D B) B ((m1 : ℝ) / 12)
        ((cum_tlim Qi D B dlim : ℝ) / 365) hQi hdn hB hB1 (by positivity) hm1tl
      have hqsw : q_switch Qi D B dlim =
          Qi / ((1 - B) * cum_D_nom D B) * 365 *
            (1 - (1 + B * cum_D_nom D B * ((cum_tlim Qi D B dlim : ℝ) / 365)) ^
              (1 - 1 / B)) := by
        rw [q_switch, show (1 + B * cum_D_nom D B * (cum_tlim Qi D B dlim : ℝ) / 365) =
          (1 + B * cum_D_nom D B * ((cum_tlim Qi D B dlim : ℝ) / 365)) from by ring]
      have h2' : (cum_tlim Qi D B dlim : ℝ) ≤ (m2 : ℝ) * 365 / 12 := not_lt.mp h2
      have hexp_nonneg : 0 ≤ (cum_qlim Qi D B dlim / cum_dlim_nom dlim * 365) *
          (1 - Real.exp (-cum_dlim_nom dlim *
            ((m2 : ℝ) * 365 / 12 - (cum_tlim Qi D B dlim : ℝ)) / 365)) := by
        have harg : -cum_dlim_nom dlim *
            ((m2 : ℝ) * 365 / 12 - (cum_tlim Qi D B dlim : ℝ)) / 365 ≤ 0 := by
          have hpr : 0 ≤ cum_dlim_nom dlim *
              ((m2 : ℝ) * 365 / 12 - (cum_tlim Qi D B dlim : ℝ)) :=
            mul_nonneg hdln.le (by linarith)
          linarith
        have hle1 : Real.exp (-cum_dlim_nom dlim *
            ((m2 : ℝ) * 365 / 12 - (cum_tlim Qi D B dlim : ℝ)) / 365) ≤ 1 :=
          Real.exp_le_one_iff.mpr harg
        have hco : 0 ≤ cum_qlim Qi D B dlim / cum_dlim_nom dlim * 365 := by positivity
        nlinarith
      calc Qi / ((1 - B) * cum_D_nom D B) * 365 *
            (1 - (1 + B * cum_D_nom D B * ((m1 : ℝ) / 12)) ^ (1 - 1 / B))
          ≤ Qi / ((1 - B) * cum_D_nom D B) * 365 *
            (1 - (1 + B * cum_D_nom D B * ((cum_tlim Qi D B dlim : ℝ) / 365)) ^
              (1 - 1 / B)) := hkey
        _ = q_switch Qi D B dlim := hqsw.symm
        _ ≤ (cum_qlim Qi D B dlim / cum_dlim_nom dlim * 365) *
            (1 - Real.exp (-cum_dlim_nom dlim *
              ((m2 : ℝ) * 365 / 12 - (cum_tlim Qi D B dlim : ℝ)) / 365)) +
            q_switch Qi D B dlim := le_add_of_nonneg_left hexp_nonneg
  · have h1' : (cum_tlim Qi D B dlim : ℝ) ≤ (m1 : ℝ) * 365 / 12 := not_lt.mp h1
    have h2 : ¬ ((m2 : ℝ) * 365 / 12 < (cum_tlim Qi D B dlim : ℝ)) := by
      push_neg
      nlinarith
    rw [if_neg h1, if_neg h2]
    have key := exp_branch_mono (cum_qlim Qi D B dlim) (cum_dlim_nom dlim)
      ((m1 : ℝ) * 365 / 12 - (cum_tlim Qi D B dlim : ℝ))
      ((m2 : ℝ) * 365 / 12 - (cum_tlim Qi D B dlim : ℝ)) hql hdln (by linarith)
    exact add_le_add_right key _

/-- C5 witness: concrete valid parameters with `B = 2 ≠ 1`, months `0 ≤ 5`. -/
theorem cumArps_monotone_in_month_witness :
    (0 : ℕ) ≤ 5 ∧ cumArps 1 (1/2) 2 (1/2) 0 ≤ cumArps 1 (1/2) 2 (1/2) 5 :=
  ⟨by norm_num, cumArps_monotone_in_month 1 (1/2) 2 (1/2) (by norm_num) (by norm_num)
    (by norm_num) (by norm_num) (by norm_num) (by norm_num) (by norm_num) 0 5 (by norm_num)⟩

/-- With `Qi ≠ 0`, the ratio `(Qi / qlim) ** B` that `cumArps` feeds the
ceiling collapses to `D_nom / dlim_nom`. -/
theorem Qi_div_cum_qlim_rpow (Qi D B dlim : ℝ) (hQi : Qi ≠ 0) (hB : B ≠ 0)
    (hdn : 0 < cum_D_nom D B) (hdln : 0 < cum_dlim_nom dlim) :
    (Qi / cum_qlim Qi D B dlim) ^ B = cum_D_nom D B / cum_dlim_nom dlim := by
  have hr : 0 < cum_dlim_nom dlim / cum_D_nom D B := div_pos hdln hdn
  rw [cum_qlim, div_mul_cancel_left₀ hQi,
    Real.inv_rpow (Real.rpow_nonneg hr.le _), ← Real.rpow_mul hr.le,
    one_div_mul_cancel hB, Real.rpow_one, inv_div]

/-- C10: for every valid parameter set with `B ≠ 1` whose derived transition
satisfies `Dlim_nom < D_nom` (so the computed `tlim` is positive), the
cumulative forecast at `month = 0` is exactly `0`. -/
theorem cumArps_zero_month (Qi D B dlim : ℝ) (hQi : 0 < Qi) (hD0 : 0 < D) (hD1 : D < 1)
    (hB : 0 < B) (hB1 : B ≠ 1) (hl0 : 0 < dlim) (hl1 : dlim < 1)
    (hlim : cum_dlim_nom dlim < cum_D_nom D B) :
    cumArps Qi D B dlim 0 = 0 := by
  have hdn : 0 < cum_D_nom D B := cum_D_nom_pos hD0 hD1 hB
  have hdln : 0 < cum_dlim_nom dlim := cum_dlim_nom_pos hl0 hl1
  have hX : (Qi / cum_qlim Qi D B dlim) ^ B = cum_D_nom D B / cum_dlim_nom dlim :=
    Qi_div_cum_qlim_rpow Qi D B dlim hQi.ne' hB.ne' hdn hdln
  have hE : 0 < ((Qi / cum_qlim Qi D B dlim) ^ B - 1) / (B * cum_D_nom D B) := by
    rw [hX]
    have h1 : 1 < cum_D_nom D B / cum_dlim_nom dlim := (one_lt_div hdln).mpr hlim
    exact div_pos (by linarith) (mul_pos hB hdn)
  have htl : 0 < cum_tlim Qi D B dlim := by
    rw [cum_tlim]
    exact mul_pos (Int.ceil_pos.mpr hE) (by norm_num)
  have htlR : (0 : ℝ) < (cum_tlim Qi D B dlim : ℝ) := by exact_mod_cast htl
  have hcond : ((0 : ℕ) : ℝ) * 365 / 12 < (cum_tlim Qi D B dlim : ℝ) := by
    simpa using htlR
  unfold cumArps
  rw [if_pos hcond]
  simp [Real.one_rpow]

/-- C10 witness: parameters `Qi = 1, D = 1/2, B = 2, dlim = 1 - exp(-1)`, where
`Dlim_nom = 1 < 3/2 = D_nom`. -/
theorem cumArps_zero_month_witness :
    cum_dlim_nom (1 - Real.exp (-1)) < cum_D_nom (1/2) 2 ∧
      cumArps 1 (1/2) 2 (1 - Real.exp (-1)) 0 = 0 := by
  have e1 : cum_dlim_nom (1 - Real.exp (-1)) = 1 := by
    rw [cum_dlim_nom, show (1 : ℝ) - (1 - Real.exp (-1)) = Real.exp (-1) from by ring,
      Real.log_exp]
    norm_num
  have e2 : cum_D_nom (1/2) 2 = 3/2 := by
    rw [cum_D_nom, show ((-1 : ℝ) * 2) = ((-2 : ℤ) : ℝ) from by norm_num, Real.rpow_intCast]
    norm_num
  have hlim : cum_dlim_nom (1 - Real.exp (-1)) < cum_D_nom (1/2) 2 := by
    rw [e1, e2]
    norm_num
  have hd0 : (0 : ℝ) < 1 - Real.exp (-1) := by
    have h := Real.exp_lt_one_iff.mpr (by norm_num : (-1 : ℝ) < 0)
    linarith
  have hd1 : (1 : ℝ) - Real.exp (-1) < 1 := by
    have h := Real.exp_pos (-1)
    linarith
  exact ⟨hlim, cumArps_zero_month 1 (1/2) 2 (1 - Real.exp (-1)) (by norm_num) (by norm_num)
    (by norm_num) (by norm_num) (by norm_num) hd0 hd1 hlim⟩

/-- C7 (amended): the hyperbolic and exponential rate formulas agree exactly
at the un-rounded transition time `t* = ((Qi/qlim)^B - 1)/(B*D_nom) * 365`
days — there the hyperbolic formula evaluates to `qlim`, which is also the
exponential formula's value at offset zero.  (At the computed `tlim`, which
ceils the year count to a whole year, the two formulas differ in general:
see the counterexample.) -/
theorem rate_continuity_at_exact_transition (Qi D B dlim : ℝ) (hQi : 0 < Qi) (hD0 : 0 < D)
    (hD1 : D < 1) (hB : 0 < B) (hl0 : 0 < dlim) (hl1 : dlim < 1) :
    Qi / (1 + B * D_nom D B *
        (((Qi / qlim Qi D B dlim) ^ B - 1) / (B * D_nom D B) * 365) / 365) ^ (1 / B) =
      qlim Qi D B dlim ∧
    qlim Qi D B dlim * Real.exp (-1 * dlim_nom dlim * (0 : ℝ) / 365) = qlim Qi D B dlim := by
  have hdn := D_nom_pos hD0 hD1 hB
  have hdln := dlim_nom_pos hl0 hl1
  have hql := qlim_pos hQi hdn hdln
  have hr2 : 0 < Qi / qlim Qi D B dlim := div_pos hQi hql
  have hBdn : B * D_nom D B ≠ 0 := (mul_pos hB hdn).ne'
  constructor
  · have hbase : 1 + B * D_nom D B *
        (((Qi / qlim Qi D B dlim) ^ B - 1) / (B * D_nom D B) * 365) / 365 =
        (Qi / qlim Qi D B dlim) ^ B := by
      field_simp
    rw [hbase, ← Real.rpow_mul hr2.le, mul_one_div, div_self hB.ne', Real.rpow_one,
      div_div_eq_mul_div, mul_comm, mul_div_assoc, div_self hQi.ne', mul_one]
  · simp

/-- C7 witness: the exact-transition continuity at
`Qi = 1, D = 1/2, B = 1, dlim = 1/2`. -/
theorem rate_continuity_at_exact_transition_witness :
    1 / (1 + 1 * D_nom (1/2) 1 *
        (((1 / qlim 1 (1/2) 1 (1/2)) ^ (1 : ℝ) - 1) / (1 * D_nom (1/2) 1) * 365) / 365) ^
        (1 / (1 : ℝ)) = qlim 1 (1/2) 1 (1/2) ∧
    qlim 1 (1/2) 1 (1/2) * Real.exp (-1 * dlim_nom (1/2) * (0 : ℝ) / 365) =
      qlim 1 (1/2) 1 (1/2) :=
  rate_continuity_at_exact_transition 1 (1/2) 1 (1/2) (by norm_num) (by norm_num)
    (by norm_num) (by norm_num) (by norm_num) (by norm_num)

/-- C7 counterexample: at the valid parameters
`Qi = 1, D = 1/2, B = 1, dlim = 1 - exp(-2)` the hyperbolic formula at the
computed `tlim` gives `1`, while `qlim = 2`: the two rate formulas do not
agree at `t = tlim` (the ceiled year count `⌈-1/2⌉ = 0` moved the transition
day away from the exact crossing). -/
theorem rate_mismatch_at_ceiled_tlim :
    (0 : ℝ) < 1 - Real.exp (-2) ∧ 1 - Real.exp (-2) < 1 ∧
    1 / (1 + 1 * D_nom (1/2) 1 * ((tlim 1 (1/2) 1 (1 - Real.exp (-2)) : ℤ) : ℝ) / 365) ^
        (1 / (1 : ℝ)) ≠ qlim 1 (1/2) 1 (1 - Real.exp (-2)) := by
  have hdn : D_nom (1/2) 1 = 1 := by
    rw [D_nom, show ((-1 : ℝ) * 1) = ((-1 : ℤ) : ℝ) from by norm_num, Real.rpow_intCast]
    norm_num
  have hdln : dlim_nom (1 - Real.exp (-2)) = 2 := by
    rw [dlim_nom, show (1 : ℝ) - (1 - Real.exp (-2)) = Real.exp (-2) from by ring,
      Real.log_exp]
    norm_num
  have hql : qlim 1 (1/2) 1 (1 - Real.exp (-2)) = 2 := by
    rw [qlim, hdln, hdn]
    norm_num [Real.rpow_one]
  have htl : tlim 1 (1/2) 1 (1 - Real.exp (-2)) = 0 := by
    rw [tlim, hql, hdn]
    rw [show ((1 : ℝ) / 2) ^ (1 : ℝ) = 1 / 2 from Real.rpow_one _]
    norm_num [Int.ceil_eq_zero_iff, Set.mem_Ioc]
  have hexp0 : (0 : ℝ) < Real.exp (-2) := Real.exp_pos _
  have hexp1 : Real.exp (-2) < 1 := Real.exp_lt_one_iff.mpr (by norm_num)
  refine ⟨by linarith, by linarith, ?_⟩
  rw [htl, hdn, hql]
  norm_num [Real.rpow_one]
